import Mathlib

/-!
Verification of the Unified-Mail synchronization and ingestion pipeline.

This file gives a shallow embedding, in Lean 4, of the parts of the
Unified-Mail backend that the specification's claims are about:

* `MessageService.storeMessage`, `MessageService.findOrCreateThread` and
  `MessageService.normalizeSubject` (backend/src/services/message.service.ts),
  together with the `update_thread_participants` trigger of
  `migrations/001_initial_schema.sql`;
* `SyncService.syncAccount` and `SyncService.getLastSyncDate`
  (backend/src/services/sync.service.ts), both as a big-step function and,
  for the serialization claim, as an interleavable sequence of the atomic
  database operations it performs;
* `GmailAdapter.fetchMessages` / `fetchFullMessage`
  (backend/src/adapters/gmail.adapter.ts);
* the index worker (backend/src/workers/index-worker.ts);
* `VaultService.updateOAuthTokens` (backend/src/services/vault.service.ts)
  and the OAuth token-refresh handler of the Gmail adapter.

Strings are modelled as `List Char` (named `Str`) so that every definition is
executable and every concrete fact decidable.  Database tables are modelled as
Lean lists in insertion order; an SQL `SELECT ... LIMIT 1` without `ORDER BY`
is modelled as `List.find?`, i.e. the first row in insertion order.  Timestamps
are modelled as `Int` milliseconds.  Generated ids (`nanoid()`, SQL defaults)
are modelled by a fresh-id counter.
-/

namespace UnifiedMail

/-- Strings of the TypeScript source, modelled as lists of characters. -/
abbrev Str := List Char

/-! ## JavaScript string primitives used by `normalizeSubject`

`normalizeSubject` (message.service.ts, lines 776-782) applies the regex
replacement `subject.replace(<anchored-tag-regex>, '')` where the anchored tag
regex (flags `g` and `i`) is `^(re|fwd|fw):` followed by `\s*`, and then
`.trim().toLowerCase().substring(0, 255)`.
Because the pattern is anchored at `^` and the regex has no `m` flag, the
global replace can only ever match at index 0, so at most one leading tag is
removed, together with the whitespace run following it.
-/

/-- Whitespace as matched by the JavaScript `\s` class and `String.trim`
(restricted to the ASCII whitespace characters that can occur in our model). -/
def isJsWs (c : Char) : Bool :=
  c = ' ' || c = '\t' || c = '\n' || c = '\r'

/-- JavaScript `String.prototype.trim`, left part. -/
def jsTrimLeft (s : Str) : Str := s.dropWhile isJsWs

/-- JavaScript `String.prototype.trim`, right part. -/
def jsTrimRight (s : Str) : Str := (s.reverse.dropWhile isJsWs).reverse

/-- JavaScript `String.prototype.trim`. -/
def jsTrim (s : Str) : Str := jsTrimRight (jsTrimLeft s)

/-- JavaScript `String.prototype.toLowerCase` (ASCII case folding). -/
def jsLower (s : Str) : Str := s.map Char.toLower

/-- Case-insensitive prefix test, as performed by a regex with the `i` flag. -/
def ciStartsWith (s pat : Str) : Bool :=
  List.isPrefixOf (jsLower pat) (jsLower s)

/-- The single replacement performed by the anchored tag regex (pattern
`^(re|fwd|fw):` then `\s*`, flags `g` and `i`): because `^` only
matches at index 0, exactly the first leading `re:` / `fwd:` / `fw:` tag
(case-insensitively) and the whitespace following it are removed; everything
else, in particular any second tag, is kept. -/
def stripReplyTag (s : Str) : Str :=
  if ciStartsWith s ['r', 'e', ':'] then jsTrimLeft (s.drop 3)
  else if ciStartsWith s ['f', 'w', 'd', ':'] then jsTrimLeft (s.drop 4)
  else if ciStartsWith s ['f', 'w', ':'] then jsTrimLeft (s.drop 3)
  else s

/-- Whether a subject still starts with one of the reply/forward tags
(case-insensitively).  Used to state which subjects the single regex
replacement leaves tag-free. -/
def hasReplyTag (s : Str) : Bool :=
  ciStartsWith s ['r', 'e', ':'] || ciStartsWith s ['f', 'w', 'd', ':'] ||
    ciStartsWith s ['f', 'w', ':']

/-- `MessageService.normalizeSubject` (message.service.ts, lines 776-782):
strip the first leading reply/forward tag, trim, lower-case, truncate to 255
characters. -/
def normalizeSubject (subject : Str) : Str :=
  ((jsTrim (stripReplyTag subject)).map Char.toLower).take 255

/-- Dropping a whitespace run is idempotent. -/
theorem jsTrimLeft_idem (s : Str) : jsTrimLeft (jsTrimLeft s) = jsTrimLeft s := by
  induction s with
  | nil => rfl
  | cons a l ih =>
    by_cases h : isJsWs a
    · simpa [jsTrimLeft, List.dropWhile_cons, h] using ih
    · simp [jsTrimLeft, List.dropWhile_cons, h]

/-- C9 counterexample: `normalizeSubject` does not strip repeated leading
reply/forward tags.  On `"Re: Fwd: X"` the anchored global regex removes only
the outer `Re: `, so the subject normalizes to `"fwd: x"`, not to the value of
`"X"`. -/
theorem normalizeSubject_multi_tag_counterexample :
    normalizeSubject ("Re: Fwd: X".toList) ≠ normalizeSubject ("X".toList) ∧
    normalizeSubject ("Re: Fwd: X".toList) = "fwd: x".toList ∧
    normalizeSubject ("X".toList) = "x".toList := by
  refine ⟨by decide, by decide, by decide⟩

/-- C9 (amended): `normalizeSubject` strips exactly one leading reply/forward
tag (case-insensitively, with the whitespace run following it), then trims,
folds case and truncates to 255 characters.  Hence prepending a single
`"Re: "` tag to a tag-free subject does not change its normalized form, while
doubly-tagged subjects keep the inner tag (see the counterexample). -/
theorem normalizeSubject_strips_single_tag (s : Str) (h : hasReplyTag s = false) :
    normalizeSubject ('R' :: 'e' :: ':' :: ' ' :: s) = normalizeSubject s := by
  have h1 : stripReplyTag ('R' :: 'e' :: ':' :: ' ' :: s) = jsTrimLeft s := rfl
  have h2 : stripReplyTag s = s := by
    rw [hasReplyTag, Bool.or_eq_false_iff, Bool.or_eq_false_iff] at h
    simp [stripReplyTag, h.1.1, h.1.2, h.2]
  simp [normalizeSubject, h1, h2, jsTrim, jsTrimLeft_idem]

/-- Witness for the amended C9 theorem at the concrete subject `"Budget"`. -/
theorem normalizeSubject_strips_single_tag_witness :
    hasReplyTag ("Budget".toList) = false ∧
    normalizeSubject ('R' :: 'e' :: ':' :: ' ' :: "Budget".toList) =
      normalizeSubject ("Budget".toList) :=
  ⟨by decide, normalizeSubject_strips_single_tag _ (by decide)⟩

/-! ## The message store

Embedding of `MessageService.storeMessage` / `findOrCreateThread`
(message.service.ts, lines 395-506 and 730-774) over the `messages` and
`threads` tables of `001_initial_schema.sql`, including the
`update_thread_participants` trigger (schema lines 226-251) that fires after
every insert on `messages`.  Raw-mail/attachment blobs and preview fields do
not influence deduplication or threading and are left out of the row model;
`nanoid()` is modelled by the fresh counter `nextId`. -/

/-- A normalized provider message handed to `storeMessage`
(`EmailMessage` of base.adapter.ts, restricted to the fields that
deduplication and threading read). -/
structure EmailMessage where
  messageId : Str
  subject : Str
  fromEmail : Str
  toEmails : List Str
  ccEmails : List Str
  date : Int
  inReplyTo : Option Str
  folder : Str
deriving Repr, DecidableEq

/-- A row of the `messages` table (the columns the claims depend on). -/
structure StoredMsg where
  id : Nat
  accountId : Str
  msgId : Str
  threadId : Nat
  folder : Str
  fromEmail : Str
  toEmails : List Str
  ccEmails : List Str
  date : Int
  inReplyTo : Option Str
deriving Repr, DecidableEq

/-- A row of the `threads` table. -/
structure Thread where
  id : Nat
  subjectNormalized : Str
  firstMessageDate : Int
  lastMessageDate : Int
  participants : List Str
  messageCount : Nat
deriving Repr, DecidableEq

/-- The message-store database: `messages` and `threads` in insertion order,
plus the fresh-id counter modelling `nanoid()`. -/
structure MailDB where
  messages : List StoredMsg
  threads : List Thread
  nextId : Nat
deriving Repr, DecidableEq

def MailDB.empty : MailDB := ⟨[], [], 0⟩

/-- `MessageService.getMessageByAccountAndMessageId`: first row of
`SELECT * FROM messages WHERE account_id = $1 AND message_id = $2`. -/
def getMessageByAccountAndMessageId (db : MailDB) (accountId msgId : Str) :
    Option StoredMsg :=
  db.messages.find? (fun m => decide (m.accountId = accountId ∧ m.msgId = msgId))

/-- `Array.from(new Set(l))`: deduplicate keeping first occurrences. -/
def dedupKeepFirst (l : List Str) : List Str :=
  l.foldl (fun acc a => if a ∈ acc then acc else acc ++ [a]) []

/-- The `threads` row inserted by the last branch of `findOrCreateThread`
(message.service.ts, lines 755-767): new id, normalized subject, the
message's date as first and last date, deduplicated participants, and the
schema default `message_count = 1`. -/
def freshThread (db : MailDB) (em : EmailMessage) : Thread :=
  { id := db.nextId
    subjectNormalized := normalizeSubject em.subject
    firstMessageDate := em.date
    lastMessageDate := em.date
    participants := dedupKeepFirst (em.fromEmail :: (em.toEmails ++ em.ccEmails))
    messageCount := 1 }

/-- `MessageService.findOrCreateThread` (message.service.ts, lines 730-774):
first the In-Reply-To lookup (`SELECT thread_id FROM messages WHERE
message_id = $1 LIMIT 1`), then the normalized-subject lookup
(`SELECT id FROM threads WHERE subject_normalized = $1 LIMIT 1`, no
`ORDER BY`), else insert a fresh thread.  Returns the chosen thread id and the
updated database. -/
def findOrCreateThread (db : MailDB) (em : EmailMessage) : Nat × MailDB :=
  let byRef : Option Nat :=
    match em.inReplyTo with
    | some rid =>
        match db.messages.find? (fun m => decide (m.msgId = rid)) with
        | some m => some m.threadId
        | none => none
    | none => none
  match byRef with
  | some tid => (tid, db)
  | none =>
      match db.threads.find?
          (fun t => decide (t.subjectNormalized = normalizeSubject em.subject)) with
      | some t => (t.id, db)
      | none =>
          (db.nextId,
           { db with threads := db.threads ++ [freshThread db em],
                     nextId := db.nextId + 1 })

/-- The `update_thread_participants` trigger (001_initial_schema.sql, lines
226-251), fired after inserting a message with thread id `tid`: on the thread
row with that id it recomputes the participant set, `message_count` as
`COUNT(*)` of the referencing messages, and `last_message_date` as their
maximal date. -/
def threadAgg (msgs : List StoredMsg) (tid : Nat) (t : Thread) : Thread :=
  if t.id = tid then
    let tm := msgs.filter (fun m => decide (m.threadId = tid))
    { t with
        participants :=
          dedupKeepFirst (tm.foldr (fun m acc => (m.toEmails ++ m.ccEmails ++ [m.fromEmail]) ++ acc) [])
        messageCount := tm.length
        lastMessageDate :=
          match tm with
          | [] => t.lastMessageDate
          | h :: r => r.foldl (fun a m => max a m.date) h.date }
  else t

/-- `MessageService.storeMessage` (message.service.ts, lines 395-506): return
the existing row if `(account_id, message_id)` is already present; otherwise
resolve the thread, insert the message row, and run the thread trigger. -/
def MailDB.storeMessage (db : MailDB) (accountId : Str) (em : EmailMessage) :
    StoredMsg × MailDB :=
  match getMessageByAccountAndMessageId db accountId em.messageId with
  | some existing => (existing, db)
  | none =>
      let r := findOrCreateThread db em
      let db1 := r.2
      let msg : StoredMsg :=
        { id := db1.nextId
          accountId := accountId
          msgId := em.messageId
          threadId := r.1
          folder := em.folder
          fromEmail := em.fromEmail
          toEmails := em.toEmails
          ccEmails := em.ccEmails
          date := em.date
          inReplyTo := em.inReplyTo }
      let msgs' := db1.messages ++ [msg]
      (msg,
       { messages := msgs'
         threads := db1.threads.map (threadAgg msgs' r.1)
         nextId := db1.nextId + 1 })

/-- Run a sequence of `storeMessage` calls (account id, message) starting from
the empty store. -/
def runStores (ops : List (Str × EmailMessage)) : MailDB :=
  ops.foldl (fun db op => (db.storeMessage op.1 op.2).2) MailDB.empty

/-- A store state is reachable when some sequence of `storeMessage` calls
produces it.  All store rows are created exclusively by the ingestion
pipeline through `storeMessage`. -/
def MailReachable (db : MailDB) : Prop := ∃ ops, db = runStores ops

/-- The dedup key `(account_id, provider_message_id)` of a stored message. -/
def dedupKey (m : StoredMsg) : Str × Str := (m.accountId, m.msgId)

/-- No two stored messages share the dedup key. -/
def DedupUnique (db : MailDB) : Prop :=
  db.messages.Pairwise (fun a b => dedupKey a ≠ dedupKey b)

/-- Every thread's `message_count` equals the number of messages that
reference it. -/
def CountsConsistent (db : MailDB) : Prop :=
  ∀ t ∈ db.threads,
    t.messageCount = (db.messages.filter (fun m => decide (m.threadId = t.id))).length

/-- No two threads share a normalized subject. -/
def SubjectsUnique (db : MailDB) : Prop :=
  db.threads.Pairwise (fun a b => a.subjectNormalized ≠ b.subjectNormalized)

/-! ## Store invariants -/

/-- `find?` returns the head of the filtered list. -/
theorem find?_eq_filter_head {α : Type} (p : α → Bool) (l : List α) :
    l.find? p = (l.filter p).head? := by
  induction l with
  | nil => rfl
  | cons a l ih =>
    cases h : p a with
    | true => rw [List.find?_cons_of_pos _ h, List.filter_cons_of_pos h, List.head?_cons]
    | false =>
        rw [List.find?_cons_of_neg _ (by simp [h]), List.filter_cons_of_neg (by simp [h]), ih]

/-- `findOrCreateThread` never changes the `messages` table, and either leaves
the database untouched (attaching to an existing thread) or, exactly when no
thread matches, appends the fresh thread and returns its id. -/
theorem findOrCreateThread_cases (db : MailDB) (em : EmailMessage) :
    (findOrCreateThread db em).2 = db ∨
    ((findOrCreateThread db em).1 = db.nextId ∧
     (findOrCreateThread db em).2 =
       { db with threads := db.threads ++ [freshThread db em], nextId := db.nextId + 1 } ∧
     db.threads.find?
       (fun t => decide (t.subjectNormalized = normalizeSubject em.subject)) = none) := by
  unfold findOrCreateThread
  rcases em.inReplyTo with _ | rid
  · dsimp only
    cases hs : db.threads.find?
        (fun t => decide (t.subjectNormalized = normalizeSubject em.subject)) with
    | none => exact Or.inr ⟨rfl, rfl, rfl⟩
    | some t => exact Or.inl rfl
  · dsimp only
    cases db.messages.find? (fun m => decide (m.msgId = rid)) with
    | none =>
        dsimp only
        cases hs : db.threads.find?
            (fun t => decide (t.subjectNormalized = normalizeSubject em.subject)) with
        | none => exact Or.inr ⟨rfl, rfl, rfl⟩
        | some t => exact Or.inl rfl
    | some m => exact Or.inl rfl

/-- `findOrCreateThread` never changes the `messages` table. -/
theorem findOrCreateThread_messages (db : MailDB) (em : EmailMessage) :
    (findOrCreateThread db em).2.messages = db.messages := by
  rcases findOrCreateThread_cases db em with h | ⟨_, h, _⟩ <;> rw [h]

/-- The trigger does not change a thread's normalized subject. -/
theorem threadAgg_subject (msgs : List StoredMsg) (tid : Nat) (t : Thread) :
    (threadAgg msgs tid t).subjectNormalized = t.subjectNormalized := by
  unfold threadAgg
  by_cases h : t.id = tid <;> simp [h]

/-- The trigger does not change a thread's id. -/
theorem threadAgg_id (msgs : List StoredMsg) (tid : Nat) (t : Thread) :
    (threadAgg msgs tid t).id = t.id := by
  unfold threadAgg
  by_cases h : t.id = tid <;> simp [h]

/-- `storeMessage` preserves dedup-key uniqueness. -/
theorem dedupUnique_store (db : MailDB) (a : Str) (em : EmailMessage)
    (h : DedupUnique db) : DedupUnique (db.storeMessage a em).2 := by
  unfold MailDB.storeMessage
  cases hfind : getMessageByAccountAndMessageId db a em.messageId with
  | some m => simpa [DedupUnique] using h
  | none =>
    have hmsgs : (findOrCreateThread db em).2.messages = db.messages :=
      findOrCreateThread_messages db em
    dsimp only [DedupUnique]
    rw [hmsgs]
    refine List.pairwise_append.mpr ⟨h, List.pairwise_singleton _ _, ?_⟩
    intro x hx y hy
    have hy' : y.accountId = a ∧ y.msgId = em.messageId := by
      rcases List.mem_singleton.mp hy with rfl
      exact ⟨rfl, rfl⟩
    have hx' := List.find?_eq_none.mp hfind x hx
    intro hkey
    have h1 : x.accountId = y.accountId := congrArg Prod.fst hkey
    have h2 : x.msgId = y.msgId := congrArg Prod.snd hkey
    exact hx' (by simp [h1, h2, hy'.1, hy'.2])

/-- The subject-uniqueness invariant for the new thread list, before the
trigger runs. -/
theorem subjectsUnique_pre (db : MailDB) (em : EmailMessage) (h : SubjectsUnique db) :
    (findOrCreateThread db em).2.threads.Pairwise
      (fun a b => a.subjectNormalized ≠ b.subjectNormalized) := by
  rcases findOrCreateThread_cases db em with hc | ⟨_, hc, hs⟩
  · rw [hc]; exact h
  · rw [hc]
    refine List.pairwise_append.mpr ⟨h, List.pairwise_singleton _ _, ?_⟩
    intro x hx y hy
    rcases List.mem_singleton.mp hy with rfl
    have hx' := List.find?_eq_none.mp hs x hx
    intro hxy
    exact hx' (by simp [freshThread] at hxy ⊢; exact hxy)

/-- `storeMessage` preserves normalized-subject uniqueness of threads. -/
theorem subjectsUnique_store (db : MailDB) (a : Str) (em : EmailMessage)
    (h : SubjectsUnique db) : SubjectsUnique (db.storeMessage a em).2 := by
  unfold MailDB.storeMessage
  cases hfind : getMessageByAccountAndMessageId db a em.messageId with
  | some m => simpa [SubjectsUnique] using h
  | none =>
    dsimp only [SubjectsUnique]
    rw [List.pairwise_map]
    refine (subjectsUnique_pre db em h).imp ?_
    intro u v huv
    rw [threadAgg_subject, threadAgg_subject]
    exact huv

/-- `storeMessage` preserves the `message_count` consistency invariant:
after the trigger runs, every thread's count equals the number of messages
referencing it. -/
theorem countsConsistent_store (db : MailDB) (a : Str) (em : EmailMessage)
    (h : CountsConsistent db) : CountsConsistent (db.storeMessage a em).2 := by
  unfold MailDB.storeMessage
  cases hfind : getMessageByAccountAndMessageId db a em.messageId with
  | some m => simpa [CountsConsistent] using h
  | none =>
    intro t ht
    dsimp only at ht ⊢
    rcases List.mem_map.mp ht with ⟨t0, ht0, rfl⟩
    by_cases hid : t0.id = (findOrCreateThread db em).1
    · -- the trigger just recomputed this thread's count from the new table
      simp [threadAgg, hid]
    · -- untouched thread: the new message belongs to a different thread
      rw [threadAgg, if_neg hid]
      have hnew :
          ((findOrCreateThread db em).2.messages ++
              [{ id := (findOrCreateThread db em).2.nextId, accountId := a,
                 msgId := em.messageId, threadId := (findOrCreateThread db em).1,
                 folder := em.folder, fromEmail := em.fromEmail,
                 toEmails := em.toEmails, ccEmails := em.ccEmails,
                 date := em.date, inReplyTo := em.inReplyTo : StoredMsg }]).filter
              (fun m => decide (m.threadId = t0.id)) =
            db.messages.filter (fun m => decide (m.threadId = t0.id)) := by
        rw [List.filter_append, findOrCreateThread_messages db em]
        have : ¬ ((findOrCreateThread db em).1 = t0.id) := fun hh => hid hh.symm
        simp [List.filter_cons, this]
      rw [hnew]
      rcases findOrCreateThread_cases db em with hc | ⟨htid, hc, _⟩
      · rw [hc] at ht0
        exact h t0 ht0
      · rw [hc] at ht0
        rcases List.mem_append.mp ht0 with h0 | h0
        · exact h t0 h0
        · rcases List.mem_singleton.mp h0 with rfl
          exact absurd (htid ▸ rfl) hid

/-- The bundle of store invariants. -/
def StoreInv (db : MailDB) : Prop :=
  DedupUnique db ∧ CountsConsistent db ∧ SubjectsUnique db

/-- The store invariants are preserved along any sequence of `storeMessage`
calls. -/
theorem storeInv_foldl (ops : List (Str × EmailMessage)) (db : MailDB)
    (h : StoreInv db) :
    StoreInv (ops.foldl (fun db op => (db.storeMessage op.1 op.2).2) db) := by
  induction ops generalizing db with
  | nil => exact h
  | cons op rest ih =>
      exact ih _ ⟨dedupUnique_store db op.1 op.2 h.1,
        countsConsistent_store db op.1 op.2 h.2.1,
        subjectsUnique_store db op.1 op.2 h.2.2⟩

/-- All three store invariants hold in every reachable store state. -/
theorem storeInvariants (ops : List (Str × EmailMessage)) : StoreInv (runStores ops) := by
  refine storeInv_foldl ops MailDB.empty ⟨List.Pairwise.nil, ?_, List.Pairwise.nil⟩
  intro t ht
  exact absurd ht (List.not_mem_nil t)

/-! ## Witness fixtures: a few concrete messages and store runs. -/

/-- A concrete account id used by witnesses. -/
def wA : Str := "acct1".toList

/-- A concrete first message. -/
def wEm1 : EmailMessage :=
  { messageId := "m1".toList, subject := "Hello".toList, fromEmail := "a@x".toList,
    toEmails := ["b@x".toList], ccEmails := [], date := 100, inReplyTo := none,
    folder := "INBOX".toList }

/-- A concrete reply to `wEm1`. -/
def wEm2 : EmailMessage :=
  { messageId := "m2".toList, subject := "Re: Hello".toList, fromEmail := "b@x".toList,
    toEmails := ["a@x".toList], ccEmails := [], date := 200,
    inReplyTo := some ("m1".toList), folder := "INBOX".toList }

/-- A concrete store run: `wEm1` then `wEm2`, on account `wA`. -/
def wOps : List (Str × EmailMessage) := [(wA, wEm1), (wA, wEm2)]

/-- The row that storing `wEm1` first on the empty store produces. -/
def wM1 : StoredMsg :=
  { id := 1, accountId := wA, msgId := "m1".toList, threadId := 0,
    folder := "INBOX".toList, fromEmail := "a@x".toList, toEmails := ["b@x".toList],
    ccEmails := [], date := 100, inReplyTo := none }

/-- C1: for every account, no two stored messages ever share the dedup key
`(account_id, provider_message_id)`: after every sequence of `storeMessage`
calls the uniqueness invariant holds, and calling `storeMessage` with a
message whose `(account_id, messageId)` pair already exists is a no-op that
returns the existing stored row instead of inserting a second one. -/
theorem storeMessage_dedup_unique (ops : List (Str × EmailMessage)) :
    DedupUnique (runStores ops) ∧
    ∀ (a : Str) (em : EmailMessage) (m : StoredMsg),
      getMessageByAccountAndMessageId (runStores ops) a em.messageId = some m →
      (runStores ops).storeMessage a em = (m, runStores ops) := by
  refine ⟨(storeInvariants ops).1, ?_⟩
  intro a em m hm
  unfold MailDB.storeMessage
  rw [hm]

/-- Witness for C1: after storing `wEm1` and `wEm2`, re-storing `wEm1` is a
no-op returning the row `wM1` that the first call created. -/
theorem storeMessage_dedup_unique_witness :
    (runStores wOps).storeMessage wA wEm1 = (wM1, runStores wOps) :=
  (storeMessage_dedup_unique wOps).2 wA wEm1 wM1 (by decide)

/-- C3: `storeMessage` is idempotent with respect to threading: a second call
with an already-stored `(account_id, messageId)` pair leaves the whole store —
in particular the `threads` table and every `message_count` — unchanged, and
after every insert each thread's `message_count` equals the number of
messages referencing it. -/
theorem storeMessage_thread_idempotent (ops : List (Str × EmailMessage)) :
    (∀ (a : Str) (em : EmailMessage) (m : StoredMsg),
      getMessageByAccountAndMessageId (runStores ops) a em.messageId = some m →
      ((runStores ops).storeMessage a em).2 = runStores ops) ∧
    CountsConsistent (runStores ops) := by
  refine ⟨?_, (storeInvariants ops).2.1⟩
  intro a em m hm
  unfold MailDB.storeMessage
  rw [hm]

/-- Witness for C3: re-storing `wEm1` after the run `wOps` leaves the store
(and so the thread table and all counts) unchanged. -/
theorem storeMessage_thread_idempotent_witness :
    ((runStores wOps).storeMessage wA wEm1).2 = runStores wOps :=
  (storeMessage_thread_idempotent wOps).1 wA wEm1 wM1 (by decide)

/-! ## C4: thread-resolution priority order

`specResolveThread` below follows the words of the specification (spec §4.4):
attach to the referenced message's thread if the In-Reply-To reference is
already stored, else to the *most recent* thread carrying the same normalized
subject, else create a new thread.  The theorem compares it against the
source's `findOrCreateThread`, whose subject lookup is a plain `LIMIT 1`
without `ORDER BY`; the two agree on every reachable store state, because
reachable states never contain two threads with the same normalized subject.
(As in the source, when several stored messages share the referenced
provider message id — possible across accounts — the first stored one is "the
already-stored message" referred to.) -/

/-- The most recent thread of a list: maximal `last_message_date`, as the
specification's "most recent existing thread". -/
def mostRecentThread (ts : List Thread) : Option Thread :=
  ts.foldl (fun acc t =>
    match acc with
    | none => some t
    | some u => if u.lastMessageDate < t.lastMessageDate then some t else some u) none

/-- The thread choice described by the specification's claim: `some tid` means
"attach to existing thread `tid`", `none` means "create a new thread". -/
def specResolveThread (db : MailDB) (em : EmailMessage) : Option Nat :=
  let byRef : Option Nat :=
    match em.inReplyTo with
    | some rid =>
        match db.messages.find? (fun m => decide (m.msgId = rid)) with
        | some m => some m.threadId
        | none => none
    | none => none
  match byRef with
  | some tid => some tid
  | none =>
      (mostRecentThread (db.threads.filter
        (fun t => decide (t.subjectNormalized = normalizeSubject em.subject)))).map
        Thread.id

/-- In a subject-unique thread list, a successful subject `find?` means the
filter is a singleton. -/
theorem subject_filter_singleton (ts : List Thread)
    (hu : ts.Pairwise (fun a b => a.subjectNormalized ≠ b.subjectNormalized))
    (ns : Str) (t : Thread)
    (hf : ts.find? (fun t => decide (t.subjectNormalized = ns)) = some t) :
    ts.filter (fun t => decide (t.subjectNormalized = ns)) = [t] := by
  rw [find?_eq_filter_head] at hf
  cases hfl : ts.filter (fun t => decide (t.subjectNormalized = ns)) with
  | nil => rw [hfl] at hf; exact absurd hf (by simp)
  | cons x rest =>
    rw [hfl] at hf
    have hx : x = t := by simpa using hf
    subst hx
    cases rest with
    | nil => rfl
    | cons y rest2 =>
      exfalso
      have hsub : (ts.filter (fun t => decide (t.subjectNormalized = ns))).Sublist ts :=
        List.filter_sublist ts
      have hpair := hu.sublist hsub
      rw [hfl] at hpair
      have hxy := (List.pairwise_cons.mp hpair).1 y (by simp)
      have h1 : x.subjectNormalized = ns := by
        have hmem : x ∈ ts.filter (fun t => decide (t.subjectNormalized = ns)) := by
          rw [hfl]; simp
        simpa using List.of_mem_filter hmem
      have h2 : y.subjectNormalized = ns := by
        have hmem : y ∈ ts.filter (fun t => decide (t.subjectNormalized = ns)) := by
          rw [hfl]; simp
        simpa using List.of_mem_filter hmem
      exact hxy (h1.trans h2.symm)

/-- C4: thread resolution applies its heuristics in priority order on every
reachable store state: a stored In-Reply-To reference wins, else the most
recent thread with the same normalized subject (reachable states carry at
most one such thread, so the first row the database returns is that thread),
else a fresh thread is created.  `findOrCreateThread` computes exactly the
specification's choice. -/
theorem findOrCreateThread_priority (db : MailDB) (em : EmailMessage)
    (h : MailReachable db) :
    (findOrCreateThread db em).1 = (specResolveThread db em).getD db.nextId ∧
    (findOrCreateThread db em).2.threads =
      (match specResolveThread db em with
       | some _ => db.threads
       | none => db.threads ++ [freshThread db em]) := by
  obtain ⟨ops, rfl⟩ := h
  have hu : SubjectsUnique (runStores ops) := (storeInvariants ops).2.2
  unfold findOrCreateThread specResolveThread
  rcases em.inReplyTo with _ | rid
  all_goals dsimp only
  · cases hs : (runStores ops).threads.find?
        (fun t => decide (t.subjectNormalized = normalizeSubject em.subject)) with
    | none =>
        have hfl : (runStores ops).threads.filter
            (fun t => decide (t.subjectNormalized = normalizeSubject em.subject)) = [] := by
          have := find?_eq_filter_head
            (fun t : Thread => decide (t.subjectNormalized = normalizeSubject em.subject))
            (runStores ops).threads
          rw [hs] at this
          exact (List.head?_eq_none_iff).mp this.symm
        rw [hfl]
        exact ⟨rfl, rfl⟩
    | some t =>
        rw [subject_filter_singleton _ hu _ t hs]
        exact ⟨rfl, rfl⟩
  · cases hr : (runStores ops).messages.find? (fun m => decide (m.msgId = rid)) with
    | none =>
        dsimp only
        cases hs : (runStores ops).threads.find?
            (fun t => decide (t.subjectNormalized = normalizeSubject em.subject)) with
        | none =>
            have hfl : (runStores ops).threads.filter
                (fun t => decide (t.subjectNormalized = normalizeSubject em.subject)) = [] := by
              have := find?_eq_filter_head
                (fun t : Thread => decide (t.subjectNormalized = normalizeSubject em.subject))
                (runStores ops).threads
              rw [hs] at this
              exact (List.head?_eq_none_iff).mp this.symm
            rw [hfl]
            exact ⟨rfl, rfl⟩
        | some t =>
            rw [subject_filter_singleton _ hu _ t hs]
            exact ⟨rfl, rfl⟩
    | some m => exact ⟨rfl, rfl⟩

/-- Witness for C4: on the reachable state built by `wOps`, resolving the
thread of a further reply agrees with the specification's priority choice. -/
theorem findOrCreateThread_priority_witness :
    MailReachable (runStores wOps) ∧
    (findOrCreateThread (runStores wOps) wEm2).1 =
      (specResolveThread (runStores wOps) wEm2).getD (runStores wOps).nextId :=
  ⟨⟨wOps, rfl⟩, (findOrCreateThread_priority (runStores wOps) wEm2 ⟨wOps, rfl⟩).1⟩

/-! ## C2: per-account serialization of sync jobs

`SyncService.syncAccount` (sync.service.ts, lines 14-130) performs, in order,
these writes and reads against the `accounts` and `sync_jobs` tables:

1. `getAccountById` and the `status !== 'active'` early return (lines 24-32);
2. `updateAccountStatus(accountId, 'syncing')` (line 35);
3. `createSyncJob` — `INSERT INTO sync_jobs (account_id, status, started_at)
   VALUES ($1, 'running', NOW())` (lines 187-196);
4. `completeSyncJob` / `failSyncJob` — `UPDATE sync_jobs SET status =
   'completed' | 'failed' ...` (lines 198-214);
5. the final `updateAccountStatus(accountId, 'active' | 'auth_failed')`.

Each step is one awaited database call, so concurrent `syncAccount`
executions (e.g. `Promise.allSettled` in `syncAllActiveAccounts`, or several
queue workers) interleave at exactly these points.  There is no per-account
lease or lock anywhere in the source; the only guard is the non-atomic
status check of step 1. -/

/-- `sync_jobs.status` values. -/
inductive JobStatus
  | pending | running | completed | failed
deriving DecidableEq, Repr

/-- `accounts.status` values. -/
inductive AccStatus
  | active | syncing | authFailed | disabled
deriving DecidableEq, Repr

/-- A row of `sync_jobs` (the columns the serialization claim reads). -/
structure SyncJobRow where
  id : Nat
  accountId : Str
  status : JobStatus
deriving DecidableEq, Repr

/-- The `accounts.status` column plus the `sync_jobs` table. -/
structure SyncSt where
  accStatus : List (Str × AccStatus)
  jobs : List SyncJobRow
  nextJobId : Nat
deriving DecidableEq, Repr

/-- Read an account's status. -/
def getStatus (st : SyncSt) (a : Str) : Option AccStatus :=
  (st.accStatus.find? (fun p => decide (p.1 = a))).map Prod.snd

/-- `accountService.updateAccountStatus` restricted to the status column. -/
def setStatus (st : SyncSt) (a : Str) (s : AccStatus) : SyncSt :=
  { st with accStatus := st.accStatus.map (fun p => if p.1 = a then (p.1, s) else p) }

/-- The five awaited steps of `syncAccount` listed above. -/
inductive SyncPhase
  | checkActive | setSyncing | createJob | finishJob | setFinal | done
deriving DecidableEq, Repr

/-- One in-flight `syncAccount` execution: its account, whether the work
between job creation and job completion succeeds, the phase it is at, and the
id of the job row it created. -/
structure SyncProc where
  accountId : Str
  succeeds : Bool
  phase : SyncPhase
  jobId : Option Nat
deriving DecidableEq, Repr

/-- Execute the next awaited database call of one `syncAccount` execution. -/
def procStep (st : SyncSt) (p : SyncProc) : SyncSt × SyncProc :=
  match p.phase with
  | .checkActive =>
      if getStatus st p.accountId = some .active then
        (st, { p with phase := .setSyncing })
      else
        (st, { p with phase := .done })
  | .setSyncing =>
      (setStatus st p.accountId .syncing, { p with phase := .createJob })
  | .createJob =>
      ({ st with
           jobs := st.jobs ++ [⟨st.nextJobId, p.accountId, .running⟩],
           nextJobId := st.nextJobId + 1 },
       { p with phase := .finishJob, jobId := some st.nextJobId })
  | .finishJob =>
      ({ st with
           jobs := st.jobs.map (fun j =>
             if some j.id = p.jobId then
               { j with status := if p.succeeds then .completed else .failed }
             else j) },
       { p with phase := .setFinal })
  | .setFinal =>
      (setStatus st p.accountId (if p.succeeds then .active else .authFailed),
       { p with phase := .done })
  | .done => (st, p)

/-- A system of concurrently running `syncAccount` executions over one shared
database. -/
structure SyncSys where
  st : SyncSt
  procs : List SyncProc
deriving DecidableEq, Repr

/-- Let execution `i` take its next awaited step. -/
def sysStep (sys : SyncSys) (i : Nat) : SyncSys :=
  match sys.procs[i]? with
  | none => sys
  | some p =>
      let r := procStep sys.st p
      ⟨r.1, sys.procs.set i r.2⟩

/-- Run a schedule: a list of process indices, each taking one step. -/
def runSched (sys : SyncSys) (sched : List Nat) : SyncSys :=
  sched.foldl sysStep sys

/-- Number of `running` sync jobs of an account. -/
def runningCount (st : SyncSt) (a : Str) : Nat :=
  st.jobs.countP (fun j => decide (j.accountId = a ∧ j.status = .running))

/-- Two concurrent `syncAccount` executions for the same (initially active)
account, starting on an empty `sync_jobs` table. -/
def twoSyncSys (a : Str) : SyncSys :=
  ⟨⟨[(a, .active)], [], 0⟩,
   [⟨a, true, .checkActive, none⟩, ⟨a, true, .checkActive, none⟩]⟩

/-- The states reachable from `sys` under some interleaving. -/
def SyncReachable (sys : SyncSys) (st : SyncSt) : Prop :=
  ∃ sched, st = (runSched sys sched).st

/-- C2 counterexample: the serialization invariant fails under concurrent
scheduling pressure.  Two `syncAccount` executions for the same account can
both pass the `status !== 'active'` check before either writes `syncing`
(the check and the job insert are separate awaited queries and no per-account
lease exists), after which both insert a `running` sync job: the schedule
`[0,1,0,0,1,1]` reaches a state with two simultaneously `running` jobs for
account `a1`. -/
theorem sync_serialization_counterexample :
    ¬ (∀ st : SyncSt, SyncReachable (twoSyncSys ("a1".toList)) st →
        ∀ a, runningCount st a ≤ 1) := by
  intro h
  exact absurd (h _ ⟨[0, 1, 0, 0, 1, 1], rfl⟩ ("a1".toList)) (by decide)

/-- The `running` rows of the `sync_jobs` table. -/
def runningJobs (st : SyncSt) : List SyncJobRow :=
  st.jobs.filter (fun j => decide (j.status = JobStatus.running))

/-- Inductive invariant for a single `syncAccount` execution: before the job
insert and after the job update there is no running job at all, and between
them exactly the one job this execution created is running. -/
def OneProcInv (sys : SyncSys) : Prop :=
  ∃ p, sys.procs = [p] ∧
    ((runningJobs sys.st = [] ∧ p.phase ≠ SyncPhase.finishJob) ∨
     (∃ j, runningJobs sys.st = [j] ∧ p.phase = SyncPhase.finishJob ∧
        some j.id = p.jobId))

/-- `setStatus` does not touch the `sync_jobs` table. -/
theorem runningJobs_setStatus (st : SyncSt) (a : Str) (s : AccStatus) :
    runningJobs (setStatus st a s) = runningJobs st := rfl

/-- The single-execution invariant is preserved by every scheduler step. -/
theorem oneProcInv_sysStep (sys : SyncSys) (i : Nat) (h : OneProcInv sys) :
    OneProcInv (sysStep sys i) := by
  obtain ⟨p, hp, hcase⟩ := h
  rcases i with _ | i
  · have h0 : sys.procs[0]? = some p := by rw [hp]; rfl
    have hset : ∀ q : SyncProc, sys.procs.set 0 q = [q] := by
      intro q; rw [hp]; rfl
    cases hph : p.phase with
    | checkActive =>
        have hleft : runningJobs sys.st = [] := by
          rcases hcase with ⟨h1, _⟩ | ⟨j, _, h2, _⟩
          · exact h1
          · rw [hph] at h2; cases h2
        by_cases hact : getStatus sys.st p.accountId = some AccStatus.active
        · have hstep : sysStep sys 0 = ⟨sys.st, [{ p with phase := .setSyncing }]⟩ := by
            simp [sysStep, h0, hset, procStep, hph, hact]
          rw [hstep]
          exact ⟨_, rfl, Or.inl ⟨hleft, by simp⟩⟩
        · have hstep : sysStep sys 0 = ⟨sys.st, [{ p with phase := .done }]⟩ := by
            simp [sysStep, h0, hset, procStep, hph, hact]
          rw [hstep]
          exact ⟨_, rfl, Or.inl ⟨hleft, by simp⟩⟩
    | setSyncing =>
        have hleft : runningJobs sys.st = [] := by
          rcases hcase with ⟨h1, _⟩ | ⟨j, _, h2, _⟩
          · exact h1
          · rw [hph] at h2; cases h2
        have hstep : sysStep sys 0 =
            ⟨setStatus sys.st p.accountId .syncing, [{ p with phase := .createJob }]⟩ := by
          simp [sysStep, h0, hset, procStep, hph]
        rw [hstep]
        refine ⟨_, rfl, Or.inl ⟨?_, by simp⟩⟩
        rw [runningJobs_setStatus]
        exact hleft
    | createJob =>
        have hleft : runningJobs sys.st = [] := by
          rcases hcase with ⟨h1, _⟩ | ⟨j, _, h2, _⟩
          · exact h1
          · rw [hph] at h2; cases h2
        have hstep : sysStep sys 0 =
            { st := { sys.st with
                 jobs := sys.st.jobs ++
                   [({ id := sys.st.nextJobId, accountId := p.accountId,
                       status := .running } : SyncJobRow)],
                 nextJobId := sys.st.nextJobId + 1 },
              procs := [{ p with phase := .finishJob, jobId := some sys.st.nextJobId }] } := by
          simp [sysStep, h0, hset, procStep, hph]
        rw [hstep]
        refine ⟨_, rfl,
          Or.inr ⟨(⟨sys.st.nextJobId, p.accountId, .running⟩ : SyncJobRow), ?_, rfl, rfl⟩⟩
        have hl : sys.st.jobs.filter (fun j => decide (j.status = JobStatus.running)) = [] :=
          hleft
        show (sys.st.jobs ++
            [({ id := sys.st.nextJobId, accountId := p.accountId,
                status := .running } : SyncJobRow)]).filter
            (fun j => decide (j.status = JobStatus.running)) = _
        rw [List.filter_append, hl]
        rfl
    | finishJob =>
        rcases hcase with ⟨_, h2⟩ | ⟨j, hj, _, hjid⟩
        · exact absurd hph h2
        · have hstep : sysStep sys 0 =
              { st := { sys.st with
                   jobs := sys.st.jobs.map (fun j =>
                     if some j.id = p.jobId then
                       { j with status := if p.succeeds then .completed else .failed }
                     else j) },
                procs := [{ p with phase := .setFinal }] } := by
            simp [sysStep, h0, hset, procStep, hph]
          rw [hstep]
          refine ⟨_, rfl, Or.inl ⟨?_, by simp⟩⟩
          show (sys.st.jobs.map (fun j =>
              if some j.id = p.jobId then
                { j with status := if p.succeeds then JobStatus.completed else JobStatus.failed }
              else j)).filter (fun j => decide (j.status = JobStatus.running)) = []
          rw [List.filter_eq_nil_iff]
          intro x hx
          rcases List.mem_map.mp hx with ⟨j0, hj0, rfl⟩
          by_cases hid : some j0.id = p.jobId
          · simp only [if_pos hid]
            cases p.succeeds <;> simp
          · simp only [if_neg hid]
            intro hrun
            have hmem : j0 ∈ runningJobs sys.st :=
              List.mem_filter.mpr ⟨hj0, by simpa using hrun⟩
            rw [hj] at hmem
            rcases List.mem_singleton.mp hmem with rfl
            exact hid hjid
    | setFinal =>
        have hleft : runningJobs sys.st = [] := by
          rcases hcase with ⟨h1, _⟩ | ⟨j, _, h2, _⟩
          · exact h1
          · rw [hph] at h2; cases h2
        have hstep : sysStep sys 0 =
            ⟨setStatus sys.st p.accountId (if p.succeeds then .active else .authFailed),
             [{ p with phase := .done }]⟩ := by
          simp [sysStep, h0, hset, procStep, hph]
        rw [hstep]
        refine ⟨_, rfl, Or.inl ⟨?_, by simp⟩⟩
        rw [runningJobs_setStatus]
        exact hleft
    | done =>
        have hstep : sysStep sys 0 = ⟨sys.st, [p]⟩ := by
          simp [sysStep, h0, hset, procStep, hph]
        rw [hstep]
        exact ⟨p, rfl, hcase⟩
  · have hnone : sys.procs[i + 1]? = none := by
      rw [hp]
      rfl
    rw [sysStep, hnone]
    exact ⟨p, hp, hcase⟩

/-- The single-execution invariant holds along every schedule. -/
theorem oneProcInv_runSched (sys : SyncSys) (h : OneProcInv sys) (sched : List Nat) :
    OneProcInv (runSched sys sched) := by
  induction sched generalizing sys with
  | nil => exact h
  | cons i rest ih => exact ih _ (oneProcInv_sysStep sys i h)

/-- Under the invariant, at most one sync job per account is running. -/
theorem runningCount_le_of_inv (sys : SyncSys) (h : OneProcInv sys) (b : Str) :
    runningCount sys.st b ≤ 1 := by
  obtain ⟨p, _, hcase⟩ := h
  have hle : runningCount sys.st b ≤ (runningJobs sys.st).length := by
    unfold runningCount runningJobs
    rw [← List.countP_eq_length_filter]
    exact List.countP_mono_left (fun j _ hjb => by
      simp only [decide_eq_true_eq] at hjb ⊢
      exact hjb.2)
  rcases hcase with ⟨h1, _⟩ | ⟨j, hj, _, _⟩
  · rw [h1] at hle
    simp only [List.length_nil] at hle
    omega
  · rw [hj] at hle
    simpa using hle

/-- C2 (amended): the at-most-one-running-job invariant holds for
`syncAccount` executions that do not interleave.  A single execution started
when no sync job is running keeps at most one `running` job per account at
every step, and once it has finished no running job remains — so consecutive,
non-overlapping executions preserve the invariant throughout.  (Interleaved
executions can break it: see the counterexample.) -/
theorem syncAccount_sequential_single_running (st0 : SyncSt) (a : Str) (s : Bool)
    (h0 : runningJobs st0 = []) (sched : List Nat) (b : Str) :
    runningCount (runSched ⟨st0, [⟨a, s, .checkActive, none⟩]⟩ sched).st b ≤ 1 ∧
    ((runSched ⟨st0, [⟨a, s, .checkActive, none⟩]⟩ sched).procs.all
        (fun p => decide (p.phase = SyncPhase.done)) = true →
      runningJobs (runSched ⟨st0, [⟨a, s, .checkActive, none⟩]⟩ sched).st = []) := by
  have hinv : OneProcInv (runSched ⟨st0, [⟨a, s, .checkActive, none⟩]⟩ sched) :=
    oneProcInv_runSched _ ⟨_, rfl, Or.inl ⟨h0, by simp⟩⟩ sched
  refine ⟨runningCount_le_of_inv _ hinv b, ?_⟩
  intro hall
  obtain ⟨p, hp, hcase⟩ := hinv
  rcases hcase with ⟨h1, _⟩ | ⟨j, _, h2, _⟩
  · exact h1
  · exfalso
    have := List.all_eq_true.mp hall p (by rw [hp]; simp)
    rw [h2] at this
    simp at this

/-- Witness for the amended C2 theorem: a full run of one `syncAccount`
execution on an active account keeps at most one running job and ends with
none. -/
theorem syncAccount_sequential_single_running_witness :
    runningCount (runSched ⟨⟨[("a1".toList, .active)], [], 0⟩,
        [⟨"a1".toList, true, .checkActive, none⟩]⟩ [0, 0, 0, 0, 0]).st
      ("a1".toList) ≤ 1 ∧
    runningJobs (runSched ⟨⟨[("a1".toList, .active)], [], 0⟩,
        [⟨"a1".toList, true, .checkActive, none⟩]⟩ [0, 0, 0, 0, 0]).st = [] :=
  ⟨(syncAccount_sequential_single_running _ _ _ (by decide) _ _).1,
   (syncAccount_sequential_single_running _ _ _ (by decide) [0, 0, 0, 0, 0]
      ("a1".toList)).2 (by decide)⟩

/-! ## Big-step embedding of `SyncService.syncAccount`

For the failure-handling and fetch-window claims the whole of
`syncAccount` (sync.service.ts, lines 14-130) is embedded as one function
over a system state.  The external collaborators are summarized by a
`SyncEnv`: whether the vault returns credentials, whether `testConnection`
succeeds, the adapter's fetch outcome, and which awaited per-message calls
(`storeMessage`, `addIndexJob`) throw.  Error values carry an `ErrKind`
classification so that theorems can speak about credential-related versus
other failures; the source never inspects this classification, and neither
does the embedding.  Error strings are modelled by fixed constants (the
source interpolates ids into them); job rows omit the timestamp columns. -/

/-- Classification of a failure, for stating the error-handling claims. -/
inductive ErrKind
  | credential | transientNetwork | storage | other
deriving DecidableEq, Repr

/-- An error value: a classification and the message the code throws. -/
structure SyncError where
  kind : ErrKind
  msg : Str
deriving DecidableEq, Repr

/-- A row of the `accounts` table (columns read or written by `syncAccount`;
the ISO-string sync cursor is modelled by the timestamp it denotes). -/
structure AccountRow where
  id : Str
  provider : Str
  status : AccStatus
  lastSyncAt : Option Int
  lastSyncError : Option Str
  syncCursor : Option Int
deriving DecidableEq, Repr

/-- A row of `sync_jobs` as written by `createSyncJob`, `completeSyncJob` and
`failSyncJob`. -/
structure JobRec where
  id : Nat
  accountId : Str
  status : JobStatus
  messagesSynced : Nat
  errorMessage : Option Str
deriving DecidableEq, Repr

/-- The whole persistent state `syncAccount` touches: `accounts`, the message
store, `sync_jobs`, and the index queue (the ids passed to `addIndexJob`). -/
structure SysState where
  accounts : List AccountRow
  mail : MailDB
  jobs : List JobRec
  nextJobId : Nat
  indexQueue : List Nat
deriving DecidableEq, Repr

/-- Outcomes of the external collaborators during one `syncAccount` run. -/
structure SyncEnv where
  now : Int
  credentialsOk : Bool
  connectionOk : Bool
  fetchResult : Except SyncError (List EmailMessage)
  storeFails : Nat → Bool
  indexEnqueueFails : Nat → Bool

/-- The options argument of `syncAccount`. -/
structure SyncOpts where
  sinceDate : Option Int
  maxMessages : Option Nat
deriving DecidableEq, Repr

/-- The value `syncAccount` returns, plus a trace field `fetchWindow`
recording the `sinceDate` passed to `adapter.fetchMessages` (`none` when the
adapter is never invoked). -/
structure SyncOutcome where
  success : Bool
  messagesSynced : Nat
  error : Option Str
  fetchWindow : Option Int
deriving DecidableEq, Repr

def msgAccountNotFound : Str := "Account not found".toList
def msgNotActive : Str := "Account not active".toList
def msgNoCreds : Str := "Credentials not found for account".toList
def msgUnsupportedProvider : Str := "Unsupported provider".toList
def msgConnectFailed : Str := "Failed to connect to mail provider".toList

/-- `accountService.getAccountById`. -/
def getAccountById (st : SysState) (aid : Str) : Option AccountRow :=
  st.accounts.find? (fun r => decide (r.id = aid))

/-- `accountService.updateAccountStatus` (account.service.ts, lines 135-157):
sets `status` and overwrites `last_sync_error` (with `NULL` when no error is
given). -/
def updateAccountStatus (st : SysState) (aid : Str) (s : AccStatus)
    (err : Option Str) : SysState :=
  { st with
      accounts := st.accounts.map (fun r =>
        if r.id = aid then { r with status := s, lastSyncError := err } else r) }

/-- `accountService.updateSyncCursor` (account.service.ts, lines 159-180):
sets `sync_cursor` and `last_sync_at`. -/
def updateSyncCursor (st : SysState) (aid : Str) (cursor : Int) (t : Int) : SysState :=
  { st with
      accounts := st.accounts.map (fun r =>
        if r.id = aid then { r with syncCursor := some cursor, lastSyncAt := some t } else r) }

/-- Thirty days in milliseconds (`date.setDate(date.getDate() - 30)`). -/
def thirtyDaysMs : Int := 30 * 86400000

/-- `SyncService.getLastSyncDate` (sync.service.ts, lines 176-185): the
account's `last_sync_at` if set, else thirty days before now. -/
def getLastSyncDate (acc : AccountRow) (now : Int) : Int :=
  match acc.lastSyncAt with
  | some t => t
  | none => now - thirtyDaysMs

/-- `SyncService.createSyncJob`: insert a `running` job row, returning its id. -/
def createSyncJob (st : SysState) (aid : Str) : Nat × SysState :=
  (st.nextJobId,
   { st with
       jobs := st.jobs ++ [⟨st.nextJobId, aid, .running, 0, none⟩],
       nextJobId := st.nextJobId + 1 })

/-- `SyncService.completeSyncJob`. -/
def completeSyncJob (st : SysState) (jid : Nat) (n : Nat) : SysState :=
  { st with
      jobs := st.jobs.map (fun j =>
        if j.id = jid then { j with status := .completed, messagesSynced := n } else j) }

/-- `SyncService.failSyncJob`. -/
def failSyncJob (st : SysState) (jid : Nat) (msg : Str) : SysState :=
  { st with
      jobs := st.jobs.map (fun j =>
        if j.id = jid then { j with status := .failed, errorMessage := some msg } else j) }

/-- The per-message loop of `syncAccount` (sync.service.ts, lines 78-94):
store each message, enqueue it for indexing, count it; a throw from either
awaited call is caught, logged and skipped, and the loop continues.  Returns
the updated state and `messagesSynced`. -/
def storeLoop (env : SyncEnv) (aid : Str) :
    List EmailMessage → Nat → SysState → SysState × Nat
  | [], _, st => (st, 0)
  | em :: rest, i, st =>
      if env.storeFails i then
        storeLoop env aid rest (i + 1) st
      else
        let r := st.mail.storeMessage aid em
        let st1 := { st with mail := r.2 }
        if env.indexEnqueueFails i then
          storeLoop env aid rest (i + 1) st1
        else
          let st2 := { st1 with indexQueue := st1.indexQueue ++ [r.1.id] }
          let r2 := storeLoop env aid rest (i + 1) st2
          (r2.1, r2.2 + 1)

/-- `SyncService.syncAccount` (sync.service.ts, lines 14-130), as one
big-step function.  Any throw after the `active` check lands in the outer
catch, which marks the account `auth_failed` with the error message —
regardless of the kind of failure. -/
def syncAccountRun (st : SysState) (aid : Str) (opts : SyncOpts) (env : SyncEnv) :
    SysState × SyncOutcome :=
  match getAccountById st aid with
  | none =>
      (updateAccountStatus st aid .authFailed (some msgAccountNotFound),
       ⟨false, 0, some msgAccountNotFound, none⟩)
  | some account =>
      if account.status ≠ AccStatus.active then
        (st, ⟨false, 0, some msgNotActive, none⟩)
      else
        let st1 := updateAccountStatus st aid .syncing none
        if env.credentialsOk = false then
          (updateAccountStatus st1 aid .authFailed (some msgNoCreds),
           ⟨false, 0, some msgNoCreds, none⟩)
        else if account.provider ≠ "gmail".toList then
          (updateAccountStatus st1 aid .authFailed (some msgUnsupportedProvider),
           ⟨false, 0, some msgUnsupportedProvider, none⟩)
        else if env.connectionOk = false then
          (updateAccountStatus st1 aid .authFailed (some msgConnectFailed),
           ⟨false, 0, some msgConnectFailed, none⟩)
        else
          let sinceDate := opts.sinceDate.getD (getLastSyncDate account env.now)
          let cj := createSyncJob st1 aid
          match env.fetchResult with
          | .error e =>
              (updateAccountStatus (failSyncJob cj.2 cj.1 e.msg) aid .authFailed
                 (some e.msg),
               ⟨false, 0, some e.msg, some sinceDate⟩)
          | .ok msgs =>
              let r := storeLoop env aid msgs 0 cj.2
              let st3 := completeSyncJob r.1 cj.1 r.2
              let st4 := updateSyncCursor st3 aid env.now env.now
              let st5 := updateAccountStatus st4 aid .active none
              (st5, ⟨true, r.2, none, some sinceDate⟩)

/-! ## Frame lemmas for the big-step embedding -/

/-- Looking an account up after an id-preserving keyed update. -/
theorem find?_map_keyed_update (accounts : List AccountRow) (aid : Str)
    (g : AccountRow → AccountRow) (hg : ∀ r, (g r).id = r.id) (account : AccountRow)
    (h : accounts.find? (fun r => decide (r.id = aid)) = some account) :
    (accounts.map (fun r => if r.id = aid then g r else r)).find?
      (fun r => decide (r.id = aid)) = some (g account) := by
  induction accounts with
  | nil => cases h
  | cons r rest ih =>
      by_cases hr : r.id = aid
      · rw [List.find?_cons_of_pos _ (by simpa using hr)] at h
        injection h with h
        subst h
        rw [List.map_cons, if_pos hr, List.find?_cons_of_pos]
        simp [hg, hr]
      · rw [List.find?_cons_of_neg _ (by simpa using hr)] at h
        rw [List.map_cons, if_neg hr, List.find?_cons_of_neg _ (by simpa using hr)]
        exact ih h

/-- Failing the freshly inserted job row updates exactly that row. -/
theorem failJob_append_fresh (jobs : List JobRec) (nid : Nat) (aid : Str) (msg : Str)
    (hfresh : ∀ j ∈ jobs, j.id ≠ nid) :
    (jobs ++ [(⟨nid, aid, .running, 0, none⟩ : JobRec)]).map (fun j =>
        if j.id = nid then { j with status := JobStatus.failed, errorMessage := some msg }
        else j) =
      jobs ++ [(⟨nid, aid, .failed, 0, some msg⟩ : JobRec)] := by
  rw [List.map_append]
  congr 1
  · calc jobs.map (fun j =>
          if j.id = nid then { j with status := JobStatus.failed, errorMessage := some msg }
          else j)
        = jobs.map id := List.map_congr_left (fun j hj => if_neg (hfresh j hj))
      _ = jobs := List.map_id jobs
  · simp

/-- Completing the freshly inserted job row updates exactly that row. -/
theorem completeJob_append_fresh (jobs : List JobRec) (nid : Nat) (aid : Str) (n : Nat)
    (hfresh : ∀ j ∈ jobs, j.id ≠ nid) :
    (jobs ++ [(⟨nid, aid, .running, 0, none⟩ : JobRec)]).map (fun j =>
        if j.id = nid then { j with status := JobStatus.completed, messagesSynced := n }
        else j) =
      jobs ++ [(⟨nid, aid, .completed, n, none⟩ : JobRec)] := by
  rw [List.map_append]
  congr 1
  · calc jobs.map (fun j =>
          if j.id = nid then { j with status := JobStatus.completed, messagesSynced := n }
          else j)
        = jobs.map id := List.map_congr_left (fun j hj => if_neg (hfresh j hj))
      _ = jobs := List.map_id jobs
  · simp

/-- The per-message loop never touches `accounts`, `sync_jobs` or the job-id
counter: message storage and index enqueueing live in their own part of the
state. -/
theorem storeLoop_frame (env : SyncEnv) (aid : Str) (msgs : List EmailMessage)
    (i : Nat) (st : SysState) :
    (storeLoop env aid msgs i st).1.jobs = st.jobs ∧
    (storeLoop env aid msgs i st).1.accounts = st.accounts ∧
    (storeLoop env aid msgs i st).1.nextJobId = st.nextJobId := by
  induction msgs generalizing i st with
  | nil => exact ⟨rfl, rfl, rfl⟩
  | cons em rest ih =>
      unfold storeLoop
      cases h1 : env.storeFails i with
      | true =>
          rw [if_pos rfl]
          exact ih (i + 1) st
      | false =>
          rw [if_neg (by simp : ¬ false = true)]
          cases h2 : env.indexEnqueueFails i with
          | true =>
              rw [if_pos rfl]
              exact ih (i + 1) _
          | false =>
              rw [if_neg (by simp : ¬ false = true)]
              exact ih (i + 1) _

/-! ## C5: failure handling of `syncAccount` -/

/-- A concrete active gmail account for the failure scenarios. -/
def ceAcc : AccountRow :=
  { id := "a1".toList, provider := "gmail".toList, status := .active,
    lastSyncAt := none, lastSyncError := none, syncCursor := none }

/-- A concrete initial system state holding only `ceAcc`. -/
def ceSt : SysState :=
  { accounts := [ceAcc], mail := MailDB.empty, jobs := [], nextJobId := 0,
    indexQueue := [] }

/-- A transient (non-credential) provider failure. -/
def ceNetErr : SyncError := ⟨.transientNetwork, "socket timeout".toList⟩

/-- An environment in which credentials and connection are fine but the fetch
fails with the transient error `ceNetErr`. -/
def ceEnvNet : SyncEnv :=
  { now := 1000000, credentialsOk := true, connectionOk := true,
    fetchResult := .error ceNetErr, storeFails := fun _ => false,
    indexEnqueueFails := fun _ => false }

/-- C5 counterexample: a non-credential-related failure does *not* leave the
account `active`.  When the fetch fails with a transient network error, the
outer catch of `syncAccount` unconditionally marks the account `auth_failed`
(sync.service.ts, line 126); the job is marked `failed`, as the claim says,
but the credential/non-credential distinction is not preserved. -/
theorem sync_failure_status_counterexample :
    ceNetErr.kind ≠ ErrKind.credential ∧
    (syncAccountRun ceSt ("a1".toList) ⟨none, none⟩ ceEnvNet).1.accounts.map
        AccountRow.status = [AccStatus.authFailed] ∧
    (syncAccountRun ceSt ("a1".toList) ⟨none, none⟩ ceEnvNet).1.jobs.map
        JobRec.status = [JobStatus.failed] :=
  ⟨by decide, by decide, by decide⟩

/-- C5 (amended): when the fetch step of a sync attempt fails — with an error
of *any* kind, credential-related or not — `syncAccount` marks the created
sync job `failed` with the error message and unconditionally marks the
account `auth_failed` with `last_sync_error` set; the `active`-with-logged-
error outcome for non-credential failures does not exist in the code.  (The
queue retries the whole job up to the configured 3 attempts with exponential
backoff, re-running `syncAccount` each time; every failing attempt ends in
this same state.) -/
theorem sync_failure_always_auth_failed (st : SysState) (aid : Str) (opts : SyncOpts)
    (env : SyncEnv) (account : AccountRow) (e : SyncError)
    (hacc : getAccountById st aid = some account)
    (hactive : account.status = AccStatus.active)
    (hcred : env.credentialsOk = true)
    (hprov : account.provider = "gmail".toList)
    (hconn : env.connectionOk = true)
    (hfetch : env.fetchResult = .error e)
    (hfresh : ∀ j ∈ st.jobs, j.id ≠ st.nextJobId) :
    getAccountById (syncAccountRun st aid opts env).1 aid =
      some { account with status := AccStatus.authFailed, lastSyncError := some e.msg } ∧
    (syncAccountRun st aid opts env).1.jobs =
      st.jobs ++ [(⟨st.nextJobId, aid, .failed, 0, some e.msg⟩ : JobRec)] ∧
    (syncAccountRun st aid opts env).2.success = false := by
  unfold syncAccountRun
  rw [hacc]
  dsimp only
  rw [if_neg (by simp [hactive]), if_neg (by simp [hcred]), if_neg (by simp [hprov]),
    if_neg (by simp [hconn]), hfetch]
  refine ⟨?_, ?_, rfl⟩
  · show (((updateAccountStatus st aid .syncing none).accounts).map _).find? _ = _
    have h1 := find?_map_keyed_update st.accounts aid
      (fun r => { r with status := AccStatus.syncing, lastSyncError := none })
      (fun r => rfl) account hacc
    have h2 := find?_map_keyed_update
      ((updateAccountStatus st aid .syncing none).accounts) aid
      (fun r => { r with status := AccStatus.authFailed, lastSyncError := some e.msg })
      (fun r => rfl) { account with status := AccStatus.syncing, lastSyncError := none } h1
    exact h2
  · show ((st.jobs ++ [(⟨st.nextJobId, aid, .running, 0, none⟩ : JobRec)]).map _) = _
    exact failJob_append_fresh st.jobs st.nextJobId aid e.msg hfresh

/-- Witness for the amended C5 theorem at the transient-failure scenario. -/
theorem sync_failure_always_auth_failed_witness :
    getAccountById (syncAccountRun ceSt ("a1".toList) ⟨none, none⟩ ceEnvNet).1
        ("a1".toList) =
      some { ceAcc with
               status := AccStatus.authFailed
               lastSyncError := some ceNetErr.msg } ∧
    (syncAccountRun ceSt ("a1".toList) ⟨none, none⟩ ceEnvNet).1.jobs =
      [(⟨0, "a1".toList, .failed, 0, some ceNetErr.msg⟩ : JobRec)] ∧
    (syncAccountRun ceSt ("a1".toList) ⟨none, none⟩ ceEnvNet).2.success = false :=
  sync_failure_always_auth_failed ceSt ("a1".toList) ⟨none, none⟩ ceEnvNet ceAcc ceNetErr
    (by decide) (by decide) rfl (by decide) rfl rfl (by intro j hj; cases hj)

/-- C10: the fetch window of `syncAccount`.  With no explicit `sinceDate`
option, the window starts at the account's `last_sync_at` when one is
recorded, and exactly thirty days before the current time for an account that
has never completed a sync; an explicit `sinceDate` wins over both. -/
theorem syncAccount_default_window (st : SysState) (aid : Str) (opts : SyncOpts)
    (env : SyncEnv) (account : AccountRow)
    (hacc : getAccountById st aid = some account)
    (hactive : account.status = AccStatus.active)
    (hcred : env.credentialsOk = true)
    (hprov : account.provider = "gmail".toList)
    (hconn : env.connectionOk = true) :
    (syncAccountRun st aid opts env).2.fetchWindow =
      some (match opts.sinceDate, account.lastSyncAt with
            | some d, _ => d
            | none, some t => t
            | none, none => env.now - thirtyDaysMs) := by
  unfold syncAccountRun
  rw [hacc]
  dsimp only
  rw [if_neg (by simp [hactive]), if_neg (by simp [hcred]), if_neg (by simp [hprov]),
    if_neg (by simp [hconn])]
  have hwin : opts.sinceDate.getD (getLastSyncDate account env.now) =
      (match opts.sinceDate, account.lastSyncAt with
       | some d, _ => d
       | none, some t => t
       | none, none => env.now - thirtyDaysMs) := by
    rcases hopt : opts.sinceDate with _ | d
    · rcases hlast : account.lastSyncAt with _ | t
      · simp [getLastSyncDate, hlast]
      · simp [getLastSyncDate, hlast]
    · simp
  cases env.fetchResult with
  | error e => simpa using hwin
  | ok msgs => simpa using hwin

/-- Witness for C10 at a never-synced account: the window is exactly thirty
days before now. -/
theorem syncAccount_default_window_witness :
    (syncAccountRun ceSt ("a1".toList) ⟨none, none⟩ ceEnvNet).2.fetchWindow =
      some (1000000 - thirtyDaysMs) :=
  syncAccount_default_window ceSt ("a1".toList) ⟨none, none⟩ ceEnvNet ceAcc
    (by decide) (by decide) rfl (by decide) rfl

/-! ## C6: malformed provider records in `GmailAdapter.fetchMessages`

`fetchMessages` (gmail.adapter.ts, lines 63-98) lists message ids, fetches
each full message with `fetchFullMessage` (lines 115-139) — which returns
`null` both when the record has no raw content and when fetching/parsing it
throws — and then filters the `null`s out, returning a plain
`EmailMessage[]`.  A provider record is modelled by its id together with the
outcome of `fetchFullMessage` on it: `none` exactly when the record is
malformed. -/

/-- One provider record of a fetch batch. -/
structure GmailRecord where
  gid : Str
  payload : Option EmailMessage
deriving DecidableEq, Repr

/-- `GmailAdapter.fetchFullMessage`: `null` (here `none`) on a malformed
record, the parsed message otherwise. -/
def fetchFullMessage (r : GmailRecord) : Option EmailMessage := r.payload

/-- `GmailAdapter.fetchMessages`: fetch every record and drop the failed
ones (`messages.filter((msg) => msg !== null)`). -/
def gmailFetchMessages (records : List GmailRecord) : List EmailMessage :=
  records.filterMap fetchFullMessage

/-- Distinct messages for the five-record batch of scenario B. -/
def bEm (n : Nat) (subj : Str) : EmailMessage :=
  { messageId := ('b' :: Nat.toDigits 10 n), subject := subj,
    fromEmail := "s@x".toList, toEmails := ["t@x".toList], ccEmails := [],
    date := Int.ofNat (1000 + n), inReplyTo := none, folder := "INBOX".toList }

/-- The five-record batch of scenario B: record #3 is malformed. -/
def bBatch5 : List GmailRecord :=
  [⟨"g1".toList, some (bEm 1 "alpha".toList)⟩,
   ⟨"g2".toList, some (bEm 2 "beta".toList)⟩,
   ⟨"g3".toList, none⟩,
   ⟨"g4".toList, some (bEm 4 "gamma".toList)⟩,
   ⟨"g5".toList, some (bEm 5 "delta".toList)⟩]

/-- The same batch with a different record malformed in place of `g3`. -/
def bBatch5' : List GmailRecord :=
  [⟨"g1".toList, some (bEm 1 "alpha".toList)⟩,
   ⟨"g2".toList, some (bEm 2 "beta".toList)⟩,
   ⟨"gX".toList, none⟩,
   ⟨"g4".toList, some (bEm 4 "gamma".toList)⟩,
   ⟨"g5".toList, some (bEm 5 "delta".toList)⟩]

/-- An environment whose fetch yields the well-formed messages of `bBatch5`
and in which storage and index enqueueing succeed. -/
def bEnv : SyncEnv :=
  { now := 1000000, credentialsOk := true, connectionOk := true,
    fetchResult := .ok (gmailFetchMessages bBatch5), storeFails := fun _ => false,
    indexEnqueueFails := fun _ => false }

/-- C6 counterexample: the result of `fetchMessages` contains no per-record
error list identifying the failed record.  Two batches that differ only in
*which* record is malformed produce exactly the same result value, so no
function of the result can name the failed record; failures are only logged. -/
theorem fetch_result_has_no_error_list :
    gmailFetchMessages bBatch5 = gmailFetchMessages bBatch5' ∧ bBatch5 ≠ bBatch5' :=
  ⟨rfl, by decide⟩

/-- C6 (amended): a single malformed record fails that record only:
`fetchMessages` returns the remaining well-formed messages in order (the
failed record is logged and skipped, with no per-record error list in the
result), and the owning sync job still completes with the well-formed
messages stored: for the five-message batch with record #3 malformed, four
messages are fetched, four are stored, and the job ends `completed` with
`messages_synced = 4`. -/
theorem fetchMessages_skips_malformed :
    (∀ (pre post : List GmailRecord) (bad : GmailRecord), bad.payload = none →
        gmailFetchMessages (pre ++ bad :: post) =
          gmailFetchMessages pre ++ gmailFetchMessages post) ∧
    (gmailFetchMessages bBatch5).length = 4 ∧
    (syncAccountRun ceSt ("a1".toList) ⟨none, none⟩ bEnv).1.mail.messages.length = 4 ∧
    (syncAccountRun ceSt ("a1".toList) ⟨none, none⟩ bEnv).1.jobs =
      [(⟨0, "a1".toList, .completed, 4, none⟩ : JobRec)] ∧
    (syncAccountRun ceSt ("a1".toList) ⟨none, none⟩ bEnv).2.success = true := by
  refine ⟨?_, by decide, by decide, by decide, by decide⟩
  intro pre post bad hbad
  unfold gmailFetchMessages
  rw [List.filterMap_append, List.filterMap_cons]
  rw [show fetchFullMessage bad = none from hbad]

/-- Witness for the amended C6 theorem: splitting scenario B's batch around
its malformed record. -/
theorem fetchMessages_skips_malformed_witness :
    gmailFetchMessages bBatch5 =
      gmailFetchMessages
          [⟨"g1".toList, some (bEm 1 "alpha".toList)⟩,
           ⟨"g2".toList, some (bEm 2 "beta".toList)⟩] ++
        gmailFetchMessages
          [⟨"g4".toList, some (bEm 4 "gamma".toList)⟩,
           ⟨"g5".toList, some (bEm 5 "delta".toList)⟩] :=
  fetchMessages_skips_malformed.1
    [⟨"g1".toList, some (bEm 1 "alpha".toList)⟩,
     ⟨"g2".toList, some (bEm 2 "beta".toList)⟩]
    [⟨"g4".toList, some (bEm 4 "gamma".toList)⟩,
     ⟨"g5".toList, some (bEm 5 "delta".toList)⟩]
    ⟨"g3".toList, none⟩ rfl

/-! ## C7: indexing failures are isolated from storage and the sync job

The index worker (index-worker.ts, lines 12-70) reads the stored message and
its attachments, upserts a document into the search index keyed by the
message uuid, and rethrows on any failure so that the queue retries the index
job (3 attempts with exponential backoff per `queueConfig`,
queues/index.ts lines 37-45) — in its own queue, never touching the sync
job.  The worker performs no database writes at all.  The search index is
modelled as the list of indexed document ids; `searchOk` is whether the index
is reachable (an S3 or parse failure rethrows identically). -/

def msgMessageNotFound : Str := "Message not found".toList
def msgIndexUnreachable : Str := "search index unreachable".toList

/-- The index worker's handler for one index job. -/
def indexWorkerProcess (st : SysState) (searchIndex : List Nat) (msgUuid : Nat)
    (searchOk : Bool) : (SysState × List Nat) × Except Str Unit :=
  match st.mail.messages.find? (fun m => decide (m.id = msgUuid)) with
  | none => ((st, searchIndex), .error msgMessageNotFound)
  | some _ =>
      if searchOk then
        ((st, if msgUuid ∈ searchIndex then searchIndex else searchIndex ++ [msgUuid]),
         .ok ())
      else
        ((st, searchIndex), .error msgIndexUnreachable)

/-- An environment in which every `addIndexJob` call throws while storage
succeeds. -/
def c7Env : SyncEnv :=
  { now := 1000000, credentialsOk := true, connectionOk := true,
    fetchResult := .ok [wEm1], storeFails := fun _ => false,
    indexEnqueueFails := fun _ => true }

/-- C7: an indexing failure never fails the owning sync job and never changes
persisted storage state.  First: the index worker never writes the database,
whatever happens.  Second: with the search index unreachable the worker
leaves the index unchanged and signals an error — which only makes its own
queue retry the index job.  Third: the sync job completes and is recorded
`completed` for *every* behaviour of the per-message `addIndexJob` calls
(`env.indexEnqueueFails` is arbitrary), with the stored messages unaffected. -/
theorem index_failure_isolated :
    (∀ (st : SysState) (idx : List Nat) (u : Nat) (ok : Bool),
        (indexWorkerProcess st idx u ok).1.1 = st) ∧
    (∀ (st : SysState) (idx : List Nat) (u : Nat),
        (indexWorkerProcess st idx u false).1.2 = idx ∧
        ∃ e, (indexWorkerProcess st idx u false).2 = .error e) ∧
    (∀ (st : SysState) (aid : Str) (opts : SyncOpts) (env : SyncEnv)
        (account : AccountRow) (msgs : List EmailMessage),
        getAccountById st aid = some account →
        account.status = AccStatus.active →
        env.credentialsOk = true →
        account.provider = "gmail".toList →
        env.connectionOk = true →
        env.fetchResult = .ok msgs →
        (∀ j ∈ st.jobs, j.id ≠ st.nextJobId) →
        (syncAccountRun st aid opts env).2.success = true ∧
        ∃ n, (syncAccountRun st aid opts env).1.jobs =
          st.jobs ++ [(⟨st.nextJobId, aid, .completed, n, none⟩ : JobRec)]) := by
  refine ⟨?_, ?_, ?_⟩
  · intro st idx u ok
    unfold indexWorkerProcess
    cases st.mail.messages.find? (fun m => decide (m.id = u)) with
    | none => rfl
    | some m => cases ok <;> rfl
  · intro st idx u
    unfold indexWorkerProcess
    cases st.mail.messages.find? (fun m => decide (m.id = u)) with
    | none => exact ⟨rfl, msgMessageNotFound, rfl⟩
    | some m => exact ⟨rfl, msgIndexUnreachable, rfl⟩
  · intro st aid opts env account msgs hacc hactive hcred hprov hconn hfetch hfresh
    have hmain : (syncAccountRun st aid opts env).2.success = true ∧
        (syncAccountRun st aid opts env).1.jobs =
          st.jobs ++
            [(⟨st.nextJobId, aid, .completed,
               (storeLoop env aid msgs 0
                 (createSyncJob (updateAccountStatus st aid .syncing none) aid).2).2,
               none⟩ : JobRec)] := by
      unfold syncAccountRun
      rw [hacc]
      dsimp only
      rw [if_neg (by simp [hactive]), if_neg (by simp [hcred]), if_neg (by simp [hprov]),
        if_neg (by simp [hconn]), hfetch]
      refine ⟨rfl, ?_⟩
      show (completeSyncJob
          (storeLoop env aid msgs 0
            (createSyncJob (updateAccountStatus st aid .syncing none) aid).2).1
          st.nextJobId _).jobs = _
      unfold completeSyncJob
      dsimp only
      rw [(storeLoop_frame env aid msgs 0 _).1]
      exact completeJob_append_fresh st.jobs st.nextJobId aid _ hfresh
    exact ⟨hmain.1, _, hmain.2⟩

/-- Witness for C7: with every `addIndexJob` call failing, the sync job for
the concrete account still completes. -/
theorem index_failure_isolated_witness :
    (syncAccountRun ceSt ("a1".toList) ⟨none, none⟩ c7Env).2.success = true ∧
    ∃ n, (syncAccountRun ceSt ("a1".toList) ⟨none, none⟩ c7Env).1.jobs =
      [(⟨0, "a1".toList, .completed, n, none⟩ : JobRec)] :=
  index_failure_isolated.2.2 ceSt ("a1".toList) ⟨none, none⟩ c7Env ceAcc [wEm1]
    (by decide) (by decide) rfl (by decide) rfl rfl (by intro j hj; cases hj)

/-! ## C8: concurrent credential refresh

Every `GmailAdapter` instance owns its own `OAuth2Client` whose `tokens`
event handler (gmail.adapter.ts, lines 30-41) persists refreshed tokens — if
the response carries a `refresh_token` — via `VaultService.updateOAuthTokens`
(vault.service.ts, lines 132-152), which is a vault *read* followed by a
vault *write* of the whole credentials object.  There is no per-account lock:
two workers whose adapters both hit expired credentials each perform their
own refresh-and-persist cycle, interleaving at the awaited vault calls.

The model: one account's vault entry, a counter of refresh cycles performed
by the (external) OAuth client, and per-worker processes with three awaited
steps — the refresh itself, the vault read, and the vault write. -/

/-- The `oauth` part of a vault credentials object. -/
structure OAuthTok where
  access : Str
  refresh : Str
  expiresAt : Int
deriving DecidableEq, Repr

/-- A vault credentials object (`AccountCredentials`, restricted to the
fields the refresh path touches). -/
structure Creds where
  email : Str
  oauth : Option OAuthTok
deriving DecidableEq, Repr

/-- Tokens delivered by the OAuth client's `tokens` event; `refresh` is
optional — the handler only persists when it is present. -/
structure RefreshedTok where
  access : Str
  refresh : Option Str
  expiresAt : Int
deriving DecidableEq, Repr

/-- The shared state: the account's vault entry and the number of
refresh-and-persist cycles started. -/
structure CredSt where
  vault : Option Creds
  refreshes : Nat
deriving DecidableEq, Repr

/-- The three awaited steps of one worker's refresh path. -/
inductive CredPhase
  | doRefresh | readCreds | writeCreds | finished
deriving DecidableEq, Repr

/-- One worker's refresh execution: the tokens its client obtained, its
phase, and the credentials snapshot its `updateOAuthTokens` read. -/
structure CredProc where
  tok : RefreshedTok
  phase : CredPhase
  snapshot : Option (Option Creds)
deriving DecidableEq, Repr

/-- One awaited step of a worker's refresh path: the client refresh (counted;
skipping the persist when no refresh token is returned), then
`getAccountCredentials`, then `storeAccountCredentials` with the snapshot's
`oauth` replaced. -/
def credStep (st : CredSt) (p : CredProc) : CredSt × CredProc :=
  match p.phase with
  | .doRefresh =>
      ({ st with refreshes := st.refreshes + 1 },
       if p.tok.refresh.isSome then { p with phase := .readCreds }
       else { p with phase := .finished })
  | .readCreds => (st, { p with snapshot := some st.vault, phase := .writeCreds })
  | .writeCreds =>
      match p.snapshot with
      | some (some c) =>
          ({ st with
               vault := some { c with
                 oauth := some ⟨p.tok.access, p.tok.refresh.getD [], p.tok.expiresAt⟩ } },
           { p with phase := .finished })
      | _ => (st, { p with phase := .finished })
  | .finished => (st, p)

/-- A system of workers refreshing the same account's credentials. -/
structure CredSys where
  st : CredSt
  procs : List CredProc
deriving DecidableEq, Repr

/-- Let worker `i` take its next awaited step. -/
def credSysStep (sys : CredSys) (i : Nat) : CredSys :=
  match sys.procs[i]? with
  | none => sys
  | some p =>
      let r := credStep sys.st p
      ⟨r.1, sys.procs.set i r.2⟩

/-- Run a schedule of worker steps. -/
def runCredSched (sys : CredSys) (sched : List Nat) : CredSys :=
  sched.foldl credSysStep sys

/-- Two workers racing a refresh of the same stored credentials. -/
def twoCredSys (c : Creds) (t1 t2 : RefreshedTok) : CredSys :=
  ⟨⟨some c, 0⟩, [⟨t1, .doRefresh, none⟩, ⟨t2, .doRefresh, none⟩]⟩

/-- Concrete fixtures for the refresh race. -/
def c8Creds : Creds :=
  { email := "u@x".toList, oauth := some ⟨"oldA".toList, "oldR".toList, 50⟩ }

def c8Tok1 : RefreshedTok := ⟨"newA1".toList, some ("newR1".toList), 900⟩

def c8Tok2 : RefreshedTok := ⟨"newA2".toList, some ("newR2".toList), 950⟩

/-- C8 counterexample: two workers observing expired credentials do *not*
perform exactly one refresh-and-persist cycle.  Even when the two cycles do
not interleave, each worker refreshes and persists on its own — two cycles,
and the second persisted credential overwrites the first (the claim's
"second racer reuses the first's result" behaviour does not exist in the
code, which has no per-account lock). -/
theorem credential_refresh_not_single :
    (runCredSched (twoCredSys c8Creds c8Tok1 c8Tok2) [0, 0, 0, 1, 1, 1]).st.refreshes
        = 2 ∧
    (runCredSched (twoCredSys c8Creds c8Tok1 c8Tok2) [0, 0, 0, 1, 1, 1]).st.vault =
      some { c8Creds with
               oauth := some ⟨"newA2".toList, "newR2".toList, 950⟩ } :=
  ⟨by decide, by decide⟩

/-- How many workers have started their refresh cycle. -/
def credCycleFlag (p : CredProc) : Nat :=
  if p.phase = CredPhase.doRefresh then 0 else 1

/-- Inductive invariant: the refresh counter equals the number of workers
past their `doRefresh` step. -/
def TwoCredInv (sys : CredSys) : Prop :=
  ∃ p q, sys.procs = [p, q] ∧ sys.st.refreshes = credCycleFlag p + credCycleFlag q

/-- Effect of one worker step on the refresh counter. -/
theorem credStep_refreshes (st : CredSt) (p : CredProc) :
    (credStep st p).1.refreshes =
      st.refreshes + (if p.phase = CredPhase.doRefresh then 1 else 0) := by
  cases hph : p.phase with
  | doRefresh =>
      by_cases hr : p.tok.refresh.isSome <;> simp [credStep, hph, hr]
  | readCreds => simp [credStep, hph]
  | writeCreds =>
      rcases hsnap : p.snapshot with _ | c
      · simp [credStep, hph, hsnap]
      · rcases c with _ | c0 <;> simp [credStep, hph, hsnap]
  | finished => simp [credStep, hph]

/-- Effect of one worker step on that worker's cycle flag. -/
theorem credStep_flag (st : CredSt) (p : CredProc) :
    credCycleFlag (credStep st p).2 =
      credCycleFlag p + (if p.phase = CredPhase.doRefresh then 1 else 0) := by
  cases hph : p.phase with
  | doRefresh =>
      by_cases hr : p.tok.refresh.isSome <;> simp [credStep, hph, hr, credCycleFlag]
  | readCreds => simp [credStep, hph, credCycleFlag]
  | writeCreds =>
      rcases hsnap : p.snapshot with _ | c
      · simp [credStep, hph, hsnap, credCycleFlag]
      · rcases c with _ | c0 <;> simp [credStep, hph, hsnap, credCycleFlag]
  | finished => simp [credStep, hph, credCycleFlag]

/-- A worker's step preserves the refresh-count invariant. -/
theorem twoCredInv_step (sys : CredSys) (i : Nat) (h : TwoCredInv sys) :
    TwoCredInv (credSysStep sys i) := by
  obtain ⟨p, q, hpq, hcount⟩ := h
  match i with
  | 0 =>
      have h0 : sys.procs[0]? = some p := by rw [hpq]; rfl
      have hstep : credSysStep sys 0 =
          ⟨(credStep sys.st p).1, [(credStep sys.st p).2, q]⟩ := by
        rw [credSysStep, h0]
        dsimp only
        rw [hpq]
        rfl
      rw [hstep]
      refine ⟨(credStep sys.st p).2, q, rfl, ?_⟩
      rw [credStep_refreshes, credStep_flag, hcount]
      omega
  | 1 =>
      have h0 : sys.procs[1]? = some q := by rw [hpq]; rfl
      have hstep : credSysStep sys 1 =
          ⟨(credStep sys.st q).1, [p, (credStep sys.st q).2]⟩ := by
        rw [credSysStep, h0]
        dsimp only
        rw [hpq]
        rfl
      rw [hstep]
      refine ⟨p, (credStep sys.st q).2, rfl, ?_⟩
      rw [credStep_refreshes, credStep_flag, hcount]
      omega
  | (n + 2) =>
      have h0 : sys.procs[n + 2]? = none := by rw [hpq]; rfl
      rw [credSysStep, h0]
      exact ⟨p, q, hpq, hcount⟩

/-- The invariant holds along every schedule of the two-worker race. -/
theorem twoCredInv_runSched (sys : CredSys) (h : TwoCredInv sys) (sched : List Nat) :
    TwoCredInv (runCredSched sys sched) := by
  induction sched generalizing sys with
  | nil => exact h
  | cons i rest ih => exact ih _ (twoCredInv_step sys i h)

/-- C8 (amended): credential refresh is not race-safe and not single-cycle:
each of two workers observing expired credentials for the same account
performs its own refresh-and-persist cycle — under *every* schedule in which
both workers finish, exactly two refresh cycles have run, not one; the vault
write is an unguarded read-modify-write, so the later write overwrites the
earlier one (see the counterexample for the concrete overwrite). -/
theorem credential_refresh_two_cycles (c : Creds) (t1 t2 : RefreshedTok)
    (sched : List Nat)
    (hall : (runCredSched (twoCredSys c t1 t2) sched).procs.all
        (fun p => decide (p.phase = CredPhase.finished)) = true) :
    (runCredSched (twoCredSys c t1 t2) sched).st.refreshes = 2 := by
  have hinv : TwoCredInv (runCredSched (twoCredSys c t1 t2) sched) :=
    twoCredInv_runSched _ ⟨_, _, rfl, rfl⟩ sched
  obtain ⟨p, q, hpq, hcount⟩ := hinv
  have hp := List.all_eq_true.mp hall p (by rw [hpq]; simp)
  have hq := List.all_eq_true.mp hall q (by rw [hpq]; simp)
  simp only [decide_eq_true_eq] at hp hq
  rw [hcount]
  unfold credCycleFlag
  rw [if_neg (by rw [hp]; intro hc; cases hc), if_neg (by rw [hq]; intro hc; cases hc)]

/-- Witness for the amended C8 theorem at an interleaved schedule: both
workers read before either writes, both finish, and two refresh cycles have
run. -/
theorem credential_refresh_two_cycles_witness :
    (runCredSched (twoCredSys c8Creds c8Tok1 c8Tok2) [0, 1, 0, 1, 0, 1]).st.refreshes
      = 2 :=
  credential_refresh_two_cycles c8Creds c8Tok1 c8Tok2 [0, 1, 0, 1, 0, 1] (by decide)

end UnifiedMail
